import Mathlib

/-!
Verification of the MNHSFL fencing-results converter
(`_scripts/convert_fencing_results.py`) against its specification.

Python strings are modelled as `List Char`; Python dicts (which preserve
insertion order and keep a key's original position when its value is
updated) are modelled as association lists with unique keys.  `datetime.now()`
is purified into an explicit `today` parameter.  Fallible code returns
`Except Str α` where the Python raises `ValueError`.
-/

set_option maxRecDepth 4096

abbrev Str := List Char

/-- Python whitespace for `str.strip()` (ASCII subset). -/
def pySpace (c : Char) : Bool :=
  c.isWhitespace || c = '\x0b' || c = '\x0c'

/-- Python `str.strip()` with no arguments. -/
def pyStrip (s : Str) : Str :=
  ((s.dropWhile pySpace).reverse.dropWhile pySpace).reverse

/-- Python `str.strip(ch)` for a one-character strip set. -/
def pyStripChar (ch : Char) (s : Str) : Str :=
  ((s.dropWhile (· = ch)).reverse.dropWhile (· = ch)).reverse

/-- Python `str.lstrip(ch)` for a one-character strip set. -/
def pyLstripChar (ch : Char) (s : Str) : Str :=
  s.dropWhile (· = ch)

/-- Split at the leftmost occurrence of (non-empty) `sep`:
`some (before, after)` when `sep` occurs in `s`, else `none`.
This is the engine behind Python `str.split(sep, maxsplit)`. -/
def splitFirst (sep : Str) : Str → Option (Str × Str)
  | [] => none
  | c :: rest =>
    if sep.isPrefixOf (c :: rest) then some ([], (c :: rest).drop sep.length)
    else
      match splitFirst sep rest with
      | none => none
      | some (a, b) => some (c :: a, b)

/-- Python `s.split(sep, 2)` (at most two splits, so at most three parts). -/
def splitMax2 (sep : Str) (s : Str) : List Str :=
  match splitFirst sep s with
  | none => [s]
  | some (a, b) =>
    match splitFirst sep b with
    | none => [a, b]
    | some (c, d) => [a, c, d]

/-- Python `s.split(sep)` for a single-character separator (no maxsplit):
`"a\n\nb".split('\n') = ['a','','b']`, `''.split('\n') = ['']`. -/
def splitChar (sep : Char) : Str → List Str
  | [] => [[]]
  | c :: rest =>
    if c = sep then [] :: splitChar sep rest
    else
      match splitChar sep rest with
      | [] => [[c]]
      | l :: ls => (c :: l) :: ls

/-- Python `s.split(sep)[0]` for a single-character separator. -/
def firstPart (sep : Char) (s : Str) : Str :=
  match splitChar sep s with
  | [] => []
  | a :: _ => a

/-- Digit string to number (callers guarantee all characters are digits). -/
def toNatDigits (s : Str) : Nat :=
  s.foldl (fun a c => a * 10 + (c.toNat - 48)) 0

/-- Decimal rendering of a natural, as Python `str(n)` / f-string formatting. -/
def natToStr (n : Nat) : Str :=
  (toString n).data

/-- Python `repr` of a list of ints, as produced by an f-string:
`[2, 3]` renders as `"[2, 3]"`. -/
def listRepr (ns : List Nat) : Str :=
  "[".data ++ List.intercalate ", ".data (ns.map natToStr) ++ "]".data

/-- First-match association-list lookup (Python `d[k]` on a unique-key dict). -/
def findValue (m : List (Str × Str)) (k : Str) : Option Str :=
  match m with
  | [] => none
  | p :: rest => if p.1 = k then some p.2 else findValue rest k

/-- Python dict assignment `d[k] = v`: updates the value in place when the
key is present (keeping its position), appends otherwise. -/
def upsert (m : List (Str × Str)) (k v : Str) : List (Str × Str) :=
  if m.any (fun p => p.1 = k) then m.map (fun p => if p.1 = k then (k, v) else p)
  else m ++ [(k, v)]

/-! ## FrontmatterParser (`FrontmatterParser.parse`) -/

/-- One line of the header block: `line.split(':', 1)` then key/value
cleanup, per `FrontmatterParser._parse_frontmatter_lines`.  Lines with no
colon are skipped; duplicate keys follow dict-comprehension semantics
(`upsert`). -/
def parseFrontmatterLines (t : Str) : List (Str × Str) :=
  (splitChar '\n' (pyStrip t)).foldl
    (fun acc line =>
      match splitFirst ":".data line with
      | none => acc
      | some (k, v) =>
        upsert acc (pyStrip k) (pyStripChar (Char.ofNat 39) (pyStripChar '"' (pyStrip v))))
    []

/-- Embeds `FrontmatterParser._parse_with_frontmatter`: `content.split('---\n', 2)`,
header block when three parts result. -/
def parseWithFrontmatter (content : Str) : List (Str × Str) × Str :=
  match splitMax2 "---\n".data content with
  | [_, fmText, body] => (parseFrontmatterLines fmText, pyStrip body)
  | _ => ([], pyStrip content)

/-- Embeds `FrontmatterParser.parse`: returns the metadata map and the body text. -/
def parseFrontmatter (content : Str) : List (Str × Str) × Str :=
  if "---\n".data.isPrefixOf content then parseWithFrontmatter content
  else ([], pyStrip content)

/-! ## DateExtractor -/

/-- Day count per month used by `datetime`'s constructor validation. -/
def daysInMonth (y m : Nat) : Nat :=
  if m = 2 then (if y % 4 = 0 ∧ (y % 100 ≠ 0 ∨ y % 400 = 0) then 29 else 28)
  else if m = 4 ∨ m = 6 ∨ m = 9 ∨ m = 11 then 30
  else 31

/-- Embeds `datetime.strptime(s, '%Y-%m-%d')` succeeds: exactly four year digits,
one or two month digits (value 1..12), one or two day digits (value 1..31,
and within the month), year at least 1.  CPython's `_strptime` regex for
`%m`/`%d` does not require zero padding. -/
def validYMD (s : Str) : Bool :=
  match splitChar '-' s with
  | [y, m, d] =>
    y.length = 4 && y.all Char.isDigit && 1 ≤ toNatDigits y &&
    (m.length = 1 || m.length = 2) && m.all Char.isDigit &&
    1 ≤ toNatDigits m && toNatDigits m ≤ 12 &&
    (d.length = 1 || d.length = 2) && d.all Char.isDigit &&
    1 ≤ toNatDigits d && toNatDigits d ≤ daysInMonth (toNatDigits y) (toNatDigits m)
  | _ => false

/-- Message raised by `DateExtractor._validate_date_format`. -/
def invalidDateMsg (s : Str) : Str :=
  "Invalid date format: '".data ++ s ++
  "'\n\tExpected format: YYYY-MM-DD (e.g., 2025-03-15)\n\tOr with time: YYYY-MM-DD HH:MM:SS (e.g., 2025-03-15 14:30:00)".data

/-- Embeds `DateExtractor._validate_date_format`. -/
def validateDateFormat (s : Str) : Except Str Unit :=
  if validYMD s then .ok () else .error (invalidDateMsg s)

/-- The separator chosen by `DateExtractor._parse_datetime`:
`' ' if ' ' in date_value else 'T'`. -/
def sepOf (v : Str) : Char :=
  if ' ' ∈ v then ' ' else 'T'

/-- Embeds `DateExtractor._parse_datetime`: header date is the raw value, file
date is `date_value.split(separator)[0]`, which is then validated. -/
def parseDatetimeValue (v : Str) : Except Str (Str × Str) :=
  let fileDate := firstPart (sepOf v) v
  match validateDateFormat fileDate with
  | .error e => .error e
  | .ok _ => .ok (v, fileDate)

/-- Embeds `DateExtractor._parse_date`. -/
def parseDateValue (v : Str) : Except Str (Str × Str) :=
  if ' ' ∈ v ∨ 'T' ∈ v then parseDatetimeValue v
  else
    match validateDateFormat v with
    | .error e => .error e
    | .ok _ => .ok (v, v)

/-- Embeds `DateExtractor.extract` with `datetime.now().strftime('%Y-%m-%d')`
purified into the `today` argument. -/
def extractDate (fm : List (Str × Str)) (today : Str) : Except Str (Str × Str) :=
  match findValue fm "date".data with
  | none => .ok (today, today)
  | some v => parseDateValue v

/-! ## TableValidator and TableFormatter -/

/-- Embeds `TableValidator.validate`: 1-based indices of data rows whose cell
count differs from the header's. -/
def validateTable (rows : List (List Str)) (headers : List Str) : List Nat :=
  if rows = [] then []
  else ((rows.enum.filter fun p => p.2.length ≠ headers.length).map fun p => p.1 + 1)

/-- Embeds `TableFormatter._clean_headers`: drop a leading U+FEFF byte-order mark
from the first header cell only (a `startswith` guard then `lstrip` of U+FEFF). -/
def cleanHeaders : List Str → List Str
  | [] => []
  | h :: rest =>
    if "\uFEFF".data.isPrefixOf h then pyLstripChar '\uFEFF' h :: rest
    else h :: rest

/-- Embeds `TableFormatter._pad_row`. -/
def padRow (row : List Str) (target : Nat) : List Str :=
  (row ++ List.replicate target []).take target

/-- Embeds `TableFormatter._format_header_row`. -/
def formatHeaderRow (headers : List Str) : Str :=
  "| ".data ++ List.intercalate " | ".data headers ++ " |".data

/-- Embeds `TableFormatter._format_separator_row`. -/
def formatSeparatorRow (headers : List Str) : Str :=
  "| ".data ++ List.intercalate " | ".data (List.replicate headers.length "---".data) ++ " |".data

/-- Embeds `TableFormatter._format_data_rows`. -/
def formatDataRows (headers : List Str) (dataRows : List (List Str)) : List Str :=
  dataRows.map fun row =>
    "| ".data ++ List.intercalate " | ".data (padRow row headers.length) ++ " |".data

/-- Embeds `TableFormatter._build_table`: the lines joined by newlines, plus a trailing newline. -/
def buildTable (headers : List Str) (dataRows : List (List Str)) : Str :=
  List.intercalate "\n".data
    (formatHeaderRow headers :: formatSeparatorRow headers :: formatDataRows headers dataRows)
  ++ "\n".data

/-- The placeholder rendered for an empty table. -/
def noDataPlaceholder : Str := "*No data available*\n".data

/-- Embeds `TableFormatter.format`. -/
def renderTable (rows : List (List Str)) : Str :=
  match rows with
  | [] => noDataPlaceholder
  | first :: dataRows => buildTable (cleanHeaders first) dataRows

/-! ## FrontmatterBuilder -/

/-- The reserved keys of `FrontmatterBuilder` (`['layout', 'title', 'date']`). -/
def reservedKeys : List Str := ["layout".data, "title".data, "date".data]

/-- Embeds `FrontmatterBuilder._merge_custom_fields`: copy every non-reserved user
key into the result, in user order. -/
def mergeCustomFields (userData : List (Str × Str)) (result : List (Str × Str)) :
    List (Str × Str) :=
  userData.foldl
    (fun res p => if p.1 ∈ reservedKeys then res else upsert res p.1 p.2) result

/-- Embeds `FrontmatterBuilder._merge_overridable_fields`: `title` and `date`
take the user value when present. -/
def mergeOverridableFields (userData : List (Str × Str)) (result : List (Str × Str)) :
    List (Str × Str) :=
  ["title".data, "date".data].foldl
    (fun res k =>
      match findValue userData k with
      | some v => upsert res k v
      | none => res) result

/-- Embeds `FrontmatterBuilder._merge_frontmatter`. -/
def mergeFrontmatter (userData defaults : List (Str × Str)) : List (Str × Str) :=
  mergeOverridableFields userData (mergeCustomFields userData defaults)

/-- Embeds `FrontmatterBuilder._format_frontmatter_line`: quote a value holding a
space or a colon. -/
def formatFrontmatterLine (k v : Str) : Str :=
  if ' ' ∈ v ∨ ':' ∈ v then k ++ ": \"".data ++ v ++ "\"".data
  else k ++ ": ".data ++ v

/-- Embeds `FrontmatterBuilder._format_frontmatter`: delimiters around one line
per entry, joined by newlines (the trailing `""` entry yields the final
newline). -/
def formatFrontmatter (data : List (Str × Str)) : Str :=
  List.intercalate "\n".data
    ("---".data :: (data.map fun p => formatFrontmatterLine p.1 p.2) ++ ["---".data, []])

/-- Embeds `FrontmatterBuilder.build`. -/
def buildFM (userData defaults : List (Str × Str)) : Str :=
  formatFrontmatter (mergeFrontmatter userData defaults)

/-! ## Remaining pipeline pieces and the batch runner -/

/-- Embeds `str.title()` for ASCII: an alphabetic character is uppercased when the
preceding character is not alphabetic, lowercased otherwise. -/
def titleCaseAux : Char → Str → Str
  | _, [] => []
  | prev, c :: rest =>
    (if prev.isAlpha then c.toLower else c.toUpper) :: titleCaseAux c rest

/-- Embeds `TitleGenerator.generate`: `filename.replace('-', ' ').title()`. -/
def generateTitle (filename : Str) : Str :=
  titleCaseAux ' ' (filename.map fun c => if c = '-' then ' ' else c)

/-- Embeds `PostContentBuilder.build`. -/
def buildPostContent (fm intro table : Str) : Str :=
  if intro = [] then fm ++ table else fm ++ intro ++ "\n\n".data ++ table

/-- Embeds `OutputFilenameGenerator.generate`: file date, a hyphen, the stem, and the md extension. -/
def outputFilename (fileDate stem : Str) : Str :=
  fileDate ++ "-".data ++ stem ++ ".md".data

/-- Message raised by `ResultsGenerator._validate_table_structure`. -/
def inconsistentMsg (inconsistent : List Nat) (headers : List Str) : Str :=
  "Inconsistent column count in rows: ".data ++ listRepr inconsistent ++
  "\n\tExpected ".data ++ natToStr headers.length ++
  " column(s) to match headers: ".data ++ List.intercalate ", ".data headers ++
  "\n\tCheck that all data rows have the same number of columns as the header row.".data

/-- Embeds `ResultsGenerator._generate_table` (validation plus rendering; the
raise in `_validate_table_structure` becomes `Except.error`). -/
def generateTable (rows : List (List Str)) : Except Str Str :=
  match rows with
  | [] => .ok noDataPlaceholder
  | headers :: dataRows =>
    match validateTable dataRows headers with
    | [] => .ok (renderTable (headers :: dataRows))
    | i :: rest => .error (inconsistentMsg (i :: rest) headers)

/-- One conversion unit after its files were read: the CSV rows, the
companion file's parsed frontmatter and body, and the filename stem. -/
structure Tournament where
  stem : Str
  rows : List (List Str)
  introFM : List (Str × Str)
  introContent : Str

/-- Embeds `csv_path.name` for a unit: the stem plus the csv extension. -/
def tournamentName (t : Tournament) : Str := t.stem ++ ".csv".data

/-- Embeds `ResultsGenerator._build_frontmatter`. -/
def buildFrontmatter (stem : Str) (introFM : List (Str × Str)) (dateStr : Str) : Str :=
  buildFM introFM
    [("layout".data, "post".data),
     ("title".data, (findValue introFM "title".data).getD (generateTitle stem)),
     ("date".data, dateStr)]

/-- Embeds `ResultsGenerator._process_tournament` purified: date resolution, table
generation, frontmatter build, content assembly and output naming for one
unit; any raised `ValueError` propagates as `Except.error`.  Returns the
output filename and the file content that `PostWriter.write` persists. -/
def processTournament (today : Str) (t : Tournament) : Except Str (Str × Str) :=
  match extractDate t.introFM today with
  | .error e => .error e
  | .ok (dateStr, fileDate) =>
    match generateTable t.rows with
    | .error e => .error e
    | .ok table =>
      .ok (outputFilename fileDate t.stem,
           buildPostContent (buildFrontmatter t.stem t.introFM dateStr) t.introContent table)

/-- Embeds `ResultsGenerator._try_process_tournament`: `None` on success, the
`(csv_path.name, str(e))` pair on failure. -/
def tryProcessTournament (today : Str) (t : Tournament) : Option (Str × Str) :=
  match processTournament today t with
  | .ok _ => none
  | .error e => some (tournamentName t, e)

/-- The per-unit loop of `_collect_tournament_errors`, threading the posts
written so far (`PostWriter` effects) and the errors collected so far. -/
def runBatchAux (today : Str) (written errors : List (Str × Str)) :
    List Tournament → List (Str × Str) × List (Str × Str)
  | [] => (written, errors)
  | t :: rest =>
    match processTournament today t with
    | .ok out => runBatchAux today (written ++ [out]) errors rest
    | .error e => runBatchAux today written (errors ++ [(tournamentName t, e)]) rest

/-- Embeds `ResultsGenerator._process_all_tournaments` purified: the written
posts and the collected `(unit name, error message)` pairs. -/
def runBatch (today : Str) (ts : List Tournament) : List (Str × Str) × List (Str × Str) :=
  runBatchAux today [] [] ts

/-- The run signals failure (`raise SystemExit(1)`) exactly when the
collected error list is non-empty. -/
def batchFailed (today : Str) (ts : List Tournament) : Bool :=
  !(runBatch today ts).2.isEmpty

/-! ## Spec-side definitions (used only to compare with the code) -/

/-- Modelled from the spec: a *strict* `YYYY-MM-DD` calendar date — four
year digits, two month digits, two day digits, denoting a real calendar
date (`spec.md` §4.2 "validate it directly as strict `YYYY-MM-DD`"). -/
def specStrictYMD (s : Str) : Bool :=
  match splitChar '-' s with
  | [y, m, d] =>
    y.length = 4 && y.all Char.isDigit && 1 ≤ toNatDigits y &&
    m.length = 2 && m.all Char.isDigit && 1 ≤ toNatDigits m && toNatDigits m ≤ 12 &&
    d.length = 2 && d.all Char.isDigit && 1 ≤ toNatDigits d &&
    toNatDigits d ≤ daysInMonth (toNatDigits y) (toNatDigits m)
  | _ => false

/-- Modelled from the spec: "the substring before the first space/`T`
separator" read literally — everything before the first character that is
a space or a `'T'`. -/
def specFirstSepPart (v : Str) : Str :=
  v.takeWhile fun c => ¬ (c = ' ' ∨ c = 'T')

/-- Modelled from the spec: the first line of a text, used to express
"begins with the header-block delimiter line". -/
def specFirstLine (s : Str) : Str :=
  s.takeWhile fun c => c ≠ '\n'

/-! ## Helper lemmas -/

theorem splitChar_ne_nil (sep : Char) (s : Str) : splitChar sep s ≠ [] := by
  cases s with
  | nil => simp [splitChar]
  | cons c rest =>
    unfold splitChar
    split
    · simp
    · cases h : splitChar sep rest <;> simp

theorem firstPart_eq_takeWhile (sep : Char) (s : Str) :
    firstPart sep s = s.takeWhile (fun c => c ≠ sep) := by
  induction s with
  | nil => rfl
  | cons c rest ih =>
    by_cases hc : c = sep
    · subst hc
      simp [firstPart, splitChar, List.takeWhile_cons]
    · have hne := splitChar_ne_nil sep rest
      cases h : splitChar sep rest with
      | nil => exact absurd h hne
      | cons l ls =>
        have hl : l = rest.takeWhile (fun c => c ≠ sep) := by
          simpa [firstPart, h] using ih
        simp [firstPart, splitChar, hc, h, List.takeWhile_cons, hl]

theorem mem_splitChar (sep : Char) (s : Str) (c : Char) (hc : c ∈ s) :
    c = sep ∨ ∃ part ∈ splitChar sep s, c ∈ part := by
  induction s with
  | nil => cases hc
  | cons x rest ih =>
    by_cases hx : x = sep
    · subst hx
      rcases List.mem_cons.mp hc with h | h
      · exact Or.inl h
      · rcases ih h with h' | ⟨part, hp, hcp⟩
        · exact Or.inl h'
        · exact Or.inr ⟨part, by simp [splitChar, hp], hcp⟩
    · have hne := splitChar_ne_nil sep rest
      cases hsc : splitChar sep rest with
      | nil => exact absurd hsc hne
      | cons l ls =>
        rcases List.mem_cons.mp hc with h | h
        · subst h
          exact Or.inr ⟨c :: l, by simp [splitChar, hx, hsc], List.mem_cons_self _ _⟩
        · rcases ih h with h' | ⟨part, hp, hcp⟩
          · exact Or.inl h'
          · rw [hsc] at hp
            rcases List.mem_cons.mp hp with h'' | h''
            · subst h''
              exact Or.inr ⟨x :: part, by simp [splitChar, hx, hsc], List.mem_cons_of_mem _ hcp⟩
            · exact Or.inr ⟨part, by simp [splitChar, hx, hsc, h''], hcp⟩

theorem validYMD_mem (d : Str) (h : validYMD d = true) :
    ∀ c ∈ d, c.isDigit = true ∨ c = '-' := by
  intro c hc
  unfold validYMD at h
  cases hsc : splitChar '-' d with
  | nil => rw [hsc] at h; exact absurd h (by simp)
  | cons y tl =>
    rw [hsc] at h
    match tl with
    | [] => exact absurd h (by simp)
    | [_] => exact absurd h (by simp)
    | _ :: _ :: _ :: _ => exact absurd h (by simp)
    | [m, dd] =>
      simp only [Bool.and_eq_true, decide_eq_true_eq] at h
      obtain ⟨⟨⟨⟨⟨⟨⟨⟨⟨⟨-, hy⟩, -⟩, -⟩, hm⟩, -⟩, -⟩, -⟩, hdd⟩, -⟩, -⟩ := h
      rcases mem_splitChar '-' d c hc with h' | ⟨part, hp, hcp⟩
      · exact Or.inr h'
      · rw [hsc] at hp
        have hall : part.all Char.isDigit = true := by
          rcases List.mem_cons.mp hp with rfl | hp'
          · exact hy
          · rcases List.mem_cons.mp hp' with rfl | hp''
            · exact hm
            · rcases List.mem_cons.mp hp'' with rfl | hp'''
              · exact hdd
              · cases hp'''
        exact Or.inl (List.all_eq_true.mp hall c hcp)

theorem validYMD_not_sep (d : Str) (h : validYMD d = true) : ' ' ∉ d ∧ 'T' ∉ d := by
  constructor
  · intro hmem
    rcases validYMD_mem d h ' ' hmem with hd | hd <;> simp at hd
  · intro hmem
    rcases validYMD_mem d h 'T' hmem with hd | hd <;> simp at hd

theorem takeWhile_append_all (p : Char → Bool) (d l : Str) (h : ∀ c ∈ d, p c = true) :
    (d ++ l).takeWhile p = d ++ l.takeWhile p := by
  induction d with
  | nil => simp
  | cons c rest ih =>
    have hc := h c (List.mem_cons_self _ _)
    simp only [List.cons_append, List.takeWhile_cons, hc]
    rw [ih fun x hx => h x (List.mem_cons_of_mem _ hx)]
    simp

theorem isPrefixOf_eq_append (p s : Str) (h : p.isPrefixOf s = true) :
    s = p ++ s.drop p.length := by
  induction p generalizing s with
  | nil => simp
  | cons a p' ih =>
    cases s with
    | nil => simp [List.isPrefixOf] at h
    | cons b s' =>
      simp only [List.isPrefixOf, Bool.and_eq_true, beq_iff_eq] at h
      obtain ⟨rfl, h2⟩ := h
      simpa using ih s' h2

theorem splitFirst_of_prefixed (sep s : Str) (hsep : sep ≠ [])
    (h : sep.isPrefixOf s = true) :
    splitFirst sep s = some ([], s.drop sep.length) := by
  cases s with
  | nil =>
    cases sep with
    | nil => exact absurd rfl hsep
    | cons a p' => simp [List.isPrefixOf] at h
  | cons c rest => simp [splitFirst, h]

theorem mem_validateTable (headers : List Str) (rows : List (List Str)) (j : Nat) :
    (j + 1) ∈ validateTable rows headers ↔
      ∃ row, rows[j]? = some row ∧ row.length ≠ headers.length := by
  unfold validateTable
  split
  · subst rows
    simp
  · constructor
    · intro hmem
      rcases List.mem_map.mp hmem with ⟨p, hp, hpe⟩
      rcases List.mem_filter.mp hp with ⟨hpe2, hcond⟩
      have hj : p.1 = j := by omega
      have : rows[p.1]? = some p.2 := by
        have := List.mk_mem_enum_iff_getElem?.mp (by simpa using hpe2)
        simpa using this
      refine ⟨p.2, by rw [← hj]; exact this, ?_⟩
      simpa using hcond
    · rintro ⟨row, hrow, hlen⟩
      refine List.mem_map.mpr ⟨(j, row), List.mem_filter.mpr ⟨?_, by simpa using hlen⟩, rfl⟩
      exact List.mk_mem_enum_iff_getElem?.mpr (by simpa using hrow)

theorem runBatchAux_spec (today : Str) (ts : List Tournament) :
    ∀ written errors,
      runBatchAux today written errors ts =
        (written ++ ts.filterMap (fun t => (processTournament today t).toOption),
         errors ++ ts.filterMap (tryProcessTournament today)) := by
  induction ts with
  | nil => intro w e; simp [runBatchAux]
  | cons t rest ih =>
    intro w e
    cases hp : processTournament today t with
    | ok out =>
      simp [runBatchAux, hp, ih, Except.toOption, tryProcessTournament]
    | error er =>
      simp [runBatchAux, hp, ih, Except.toOption, tryProcessTournament]

/-! ## Claim theorems -/

/-- C7: for every metadata map with no `date` key, date resolution returns
the run-time current date (the purified `today`, which the script computes
as `datetime.now().strftime('%Y-%m-%d')`) for both the header date and the
filename date, so the two outputs are equal. -/
theorem c7_no_date_uses_today (fm : List (Str × Str)) (today : Str)
    (h : findValue fm "date".data = none) :
    extractDate fm today = .ok (today, today) := by
  simp [extractDate, h]

/-- Witness for C7 at a concrete metadata map without a `date` key. -/
theorem c7_no_date_uses_today_witness :
    extractDate [("title".data, "Season Opener".data)] "2025-10-12".data =
      .ok ("2025-10-12".data, "2025-10-12".data) :=
  c7_no_date_uses_today [("title".data, "Season Opener".data)] "2025-10-12".data (by decide)

/-- C8: a table with zero rows (as produced by reading a zero-byte CSV,
where `list(csv.reader(f)) = []`) renders as exactly the literal
no-data placeholder line, is accepted by `_generate_table` as valid
rather than an error, and a unit with such a table still produces an
output post (here with empty companion metadata, so today's date is
used). -/
theorem c8_empty_table_placeholder :
    renderTable [] = noDataPlaceholder ∧
    generateTable [] = .ok noDataPlaceholder ∧
    (∀ (today : Str) (t : Tournament), t.rows = [] → t.introFM = [] →
      processTournament today t =
        .ok (outputFilename today t.stem,
             buildPostContent (buildFrontmatter t.stem [] today) t.introContent
               noDataPlaceholder)) := by
  refine ⟨rfl, rfl, ?_⟩
  intro today t hrows hfm
  simp [processTournament, extractDate, hfm, findValue, hrows, generateTable]

/-- Witness for C8 at a concrete empty-table unit. -/
theorem c8_empty_table_placeholder_witness :
    processTournament "2025-10-12".data
        ⟨"empty-event".data, [], [], []⟩ =
      .ok (outputFilename "2025-10-12".data "empty-event".data,
           buildPostContent (buildFrontmatter "empty-event".data [] "2025-10-12".data)
             [] noDataPlaceholder) :=
  c8_empty_table_placeholder.2.2 "2025-10-12".data
    ⟨"empty-event".data, [], [], []⟩ rfl rfl

/-- C4: batch processing attempts every unit: the collected error list is
exactly the `(unit name, error message)` pair of each failing unit in
order, every successfully converted unit's output is written, and the run
signals failure (`SystemExit(1)`) if and only if at least one unit
failed. -/
theorem c4_batch_not_short_circuited (today : Str) (ts : List Tournament) :
    (runBatch today ts).2 = ts.filterMap (tryProcessTournament today) ∧
    (∀ t ∈ ts, ∀ e, processTournament today t = .error e →
      (tournamentName t, e) ∈ (runBatch today ts).2) ∧
    (∀ t ∈ ts, ∀ out, processTournament today t = .ok out →
      out ∈ (runBatch today ts).1) ∧
    (batchFailed today ts = true ↔
      ∃ t ∈ ts, ∃ e, processTournament today t = .error e) := by
  have hrb := runBatchAux_spec today ts [] []
  refine ⟨?_, ?_, ?_, ?_⟩
  · simp [runBatch, hrb]
  · intro t ht e he
    simp only [runBatch, hrb, List.nil_append]
    exact List.mem_filterMap.mpr ⟨t, ht, by simp [tryProcessTournament, he]⟩
  · intro t ht out hout
    simp only [runBatch, hrb, List.nil_append]
    exact List.mem_filterMap.mpr ⟨t, ht, by simp [hout, Except.toOption]⟩
  · simp only [batchFailed, runBatch, hrb, List.nil_append]
    constructor
    · intro hne
      have : ts.filterMap (tryProcessTournament today) ≠ [] := by
        intro hnil; rw [hnil] at hne; simp at hne
      rcases List.exists_mem_of_ne_nil _ this with ⟨p, hp⟩
      rcases List.mem_filterMap.mp hp with ⟨t, ht, htp⟩
      refine ⟨t, ht, ?_⟩
      cases he : processTournament today t with
      | ok out => simp [tryProcessTournament, he] at htp
      | error e => exact ⟨e, rfl⟩
    · rintro ⟨t, ht, e, he⟩
      have : (tournamentName t, e) ∈ ts.filterMap (tryProcessTournament today) :=
        List.mem_filterMap.mpr ⟨t, ht, by simp [tryProcessTournament, he]⟩
      cases hnil : ts.filterMap (tryProcessTournament today) with
      | nil => rw [hnil] at this; cases this
      | cons a l => simp

/-- Witness for C4 at a concrete batch of one valid and one invalid unit:
the run signals failure. -/
theorem c4_batch_not_short_circuited_witness :
    batchFailed "2025-01-01".data
      [⟨"good".data, [], [], []⟩,
       ⟨"bad".data, [], [("date".data, "2025-13-45".data)], []⟩] = true :=
  (c4_batch_not_short_circuited "2025-01-01".data
      [⟨"good".data, [], [], []⟩,
       ⟨"bad".data, [], [("date".data, "2025-13-45".data)], []⟩]).2.2.2.mpr
    ⟨⟨"bad".data, [], [("date".data, "2025-13-45".data)], []⟩, by simp,
     invalidDateMsg "2025-13-45".data, rfl⟩

/-- C1: when any data row's cell count differs from the header's,
`_generate_table` raises one validation error whose message carries the
full list of offending 1-based row indices (characterised below: `j + 1`
is listed exactly when data row `j` mismatches) and the expected column
count; the unit's pipeline run then fails and the batch writes no output
file for it. -/
theorem c1_table_mismatch_error (headers : List Str) (dataRows : List (List Str))
    (hbad : validateTable dataRows headers ≠ []) :
    generateTable (headers :: dataRows) =
      .error (inconsistentMsg (validateTable dataRows headers) headers) ∧
    (∀ j, (j + 1) ∈ validateTable dataRows headers ↔
      ∃ row, dataRows[j]? = some row ∧ row.length ≠ headers.length) ∧
    (∃ pre mid post,
      inconsistentMsg (validateTable dataRows headers) headers =
        pre ++ listRepr (validateTable dataRows headers) ++ mid ++
          natToStr headers.length ++ post) ∧
    (∀ (today : Str) (t : Tournament), t.rows = headers :: dataRows →
      processTournament today t =
        (match extractDate t.introFM today with
         | .error e => .error e
         | .ok _ => .error (inconsistentMsg (validateTable dataRows headers) headers))) ∧
    (∀ (today : Str) (t : Tournament), t.rows = headers :: dataRows →
      (runBatch today [t]).1 = []) := by
  have hgen : generateTable (headers :: dataRows) =
      .error (inconsistentMsg (validateTable dataRows headers) headers) := by
    cases hv : validateTable dataRows headers with
    | nil => exact absurd hv hbad
    | cons i rest => simp [generateTable, hv]
  have hproc : ∀ (today : Str) (t : Tournament), t.rows = headers :: dataRows →
      processTournament today t =
        (match extractDate t.introFM today with
         | .error e => .error e
         | .ok _ => .error (inconsistentMsg (validateTable dataRows headers) headers)) := by
    intro today t ht
    cases hd : extractDate t.introFM today with
    | error e => simp [processTournament, hd]
    | ok pr =>
      obtain ⟨ds, fd⟩ := pr
      simp [processTournament, hd, ht, hgen]
  refine ⟨hgen, mem_validateTable headers dataRows, ?_, hproc, ?_⟩
  · exact ⟨"Inconsistent column count in rows: ".data, "\n\tExpected ".data,
      " column(s) to match headers: ".data ++ List.intercalate ", ".data headers ++
        "\n\tCheck that all data rows have the same number of columns as the header row.".data,
      by simp [inconsistentMsg, List.append_assoc]⟩
  · intro today t ht
    have hp := hproc today t ht
    cases hd : extractDate t.introFM today with
    | error e =>
      rw [hd] at hp
      simp [runBatch, runBatchAux, hp]
    | ok pr =>
      rw [hd] at hp
      simp [runBatch, runBatchAux, hp]

/-- Witness for C1 at a concrete table with a short second row. -/
theorem c1_table_mismatch_error_witness :
    generateTable [["h1".data, "h2".data], ["a".data]] =
      .error (inconsistentMsg [1] ["h1".data, "h2".data]) ∧
    (runBatch "2025-01-01".data
      [⟨"u".data, [["h1".data, "h2".data], ["a".data]], [], []⟩]).1 = [] := by
  have h := c1_table_mismatch_error ["h1".data, "h2".data] [["a".data]] (by decide)
  exact ⟨h.1, h.2.2.2.2 "2025-01-01".data
    ⟨"u".data, [["h1".data, "h2".data], ["a".data]], [], []⟩ rfl⟩

/-- C2 (amended): for a `date` value carrying a space or a `'T'`, the
header date is the unmodified value and the filename date is the substring
before the first occurrence of the *chosen* separator — the space when the
value contains one, `'T'` otherwise — which is then validated by the
(non-padding-strict) date check; resolution fails exactly when that
substring fails the check. -/
theorem c2_datetime_value (fm : List (Str × Str)) (v today : Str)
    (hv : findValue fm "date".data = some v) (hsep : ' ' ∈ v ∨ 'T' ∈ v) :
    extractDate fm today =
      (if validYMD (firstPart (sepOf v) v) = true
       then .ok (v, firstPart (sepOf v) v)
       else .error (invalidDateMsg (firstPart (sepOf v) v))) := by
  simp only [extractDate, hv]
  rw [parseDateValue, if_pos hsep]
  unfold parseDatetimeValue validateDateFormat
  cases h : validYMD (firstPart (sepOf v) v) <;> simp [h]

/-- Counterexample to C2 as stated: in `2025-01-01T00:00 x` the first
space-or-`T` character is the `'T'`, and the prefix before it,
`2025-01-01`, is a strict calendar date, so the claim predicts success —
but the code splits on the space (which takes priority) and rejects the
unit. -/
theorem c2_datetime_value_counterexample :
    parseDateValue "2025-01-01T00:00 x".data =
      .error (invalidDateMsg "2025-01-01T00:00".data) ∧
    specFirstSepPart "2025-01-01T00:00 x".data = "2025-01-01".data ∧
    specStrictYMD "2025-01-01".data = true :=
  ⟨rfl, rfl, rfl⟩

/-- Witness for C2 (amended) at the spec's own example value. -/
theorem c2_datetime_value_witness :
    extractDate [("date".data, "2025-12-20 14:30:00".data)] "2020-01-01".data =
      .ok ("2025-12-20 14:30:00".data, "2025-12-20".data) := by
  rw [c2_datetime_value [("date".data, "2025-12-20 14:30:00".data)]
    "2025-12-20 14:30:00".data "2020-01-01".data (by decide) (by decide)]
  rfl

/-- C5 (amended): a `date` value with neither separator is validated by
the `strptime`-faithful check (four year digits, one-or-two month and day
digits, real calendar date — zero padding is *not* required); on success
both outputs equal the value, otherwise the unit fails with a message
carrying the offending string and the expected format, and the batch
writes no file for it. -/
theorem c5_plain_date (fm : List (Str × Str)) (v today : Str)
    (hv : findValue fm "date".data = some v)
    (hsp : ' ' ∉ v) (hT : 'T' ∉ v) :
    extractDate fm today =
      (if validYMD v = true then .ok (v, v) else .error (invalidDateMsg v)) ∧
    (∃ pre post, invalidDateMsg v = pre ++ v ++ post) ∧
    (∃ pre post, invalidDateMsg v = pre ++ "YYYY-MM-DD".data ++ post) ∧
    (∀ t : Tournament, t.introFM = fm → validYMD v = false →
      processTournament today t = .error (invalidDateMsg v) ∧
      (runBatch today [t]).1 = []) := by
  have hor : ¬ (' ' ∈ v ∨ 'T' ∈ v) := fun h => h.elim hsp hT
  have hext : extractDate fm today =
      (if validYMD v = true then .ok (v, v) else .error (invalidDateMsg v)) := by
    simp only [extractDate, hv]
    rw [parseDateValue, if_neg hor]
    unfold validateDateFormat
    cases h : validYMD v <;> simp [h]
  refine ⟨hext, ⟨"Invalid date format: '".data, _, rfl⟩, ?_, ?_⟩
  · refine ⟨"Invalid date format: '".data ++ v ++ "'\n\tExpected format: ".data,
      " (e.g., 2025-03-15)\n\tOr with time: YYYY-MM-DD HH:MM:SS (e.g., 2025-03-15 14:30:00)".data,
      ?_⟩
    have hlit :
        "'\n\tExpected format: YYYY-MM-DD (e.g., 2025-03-15)\n\tOr with time: YYYY-MM-DD HH:MM:SS (e.g., 2025-03-15 14:30:00)".data =
          "'\n\tExpected format: ".data ++ "YYYY-MM-DD".data ++
          " (e.g., 2025-03-15)\n\tOr with time: YYYY-MM-DD HH:MM:SS (e.g., 2025-03-15 14:30:00)".data := by
      decide
    simp [invalidDateMsg, hlit, List.append_assoc]
  · intro t ht hbad
    have hd : extractDate t.introFM today = .error (invalidDateMsg v) := by
      rw [ht, hext, hbad]
      simp
    constructor
    · simp [processTournament, hd]
    · simp [runBatch, runBatchAux, processTournament, hd]

/-- Counterexample to C5 as stated: `2025-3-5` is not a strict
`YYYY-MM-DD` string, so the claim requires a validation error, but
`strptime` accepts unpadded month and day digits and resolution
succeeds. -/
theorem c5_plain_date_counterexample :
    extractDate [("date".data, "2025-3-5".data)] "2020-01-01".data =
      .ok ("2025-3-5".data, "2025-3-5".data) ∧
    specStrictYMD "2025-3-5".data = false :=
  ⟨rfl, rfl⟩

/-- Witness for C5 (amended) at an impossible calendar date. -/
theorem c5_plain_date_witness :
    extractDate [("date".data, "2025-02-30".data)] "2020-01-01".data =
      .error (invalidDateMsg "2025-02-30".data) := by
  rw [(c5_plain_date [("date".data, "2025-02-30".data)] "2025-02-30".data
    "2020-01-01".data (by decide) (by decide) (by decide)).1]
  rfl

/-- C10: for a `date` value containing the separator, only the substring
before the (chosen) separator is ever validated: resolution succeeds
exactly when that prefix passes the date check, returns the raw value —
suffix reproduced verbatim — as header date, and for a valid prefix
succeeds for an arbitrary suffix after a space separator (and for any
space-free suffix after a `'T'` separator). -/
theorem c10_suffix_never_validated (v : Str) (hsep : ' ' ∈ v ∨ 'T' ∈ v) :
    ((∃ r, parseDateValue v = .ok r) ↔ validYMD (firstPart (sepOf v) v) = true) ∧
    (∀ r, parseDateValue v = .ok r → r = (v, firstPart (sepOf v) v)) ∧
    (validYMD (firstPart (sepOf v) v) = false →
      parseDateValue v = .error (invalidDateMsg (firstPart (sepOf v) v))) ∧
    (∀ d suf : Str, validYMD d = true →
      parseDateValue (d ++ ' ' :: suf) = .ok (d ++ ' ' :: suf, d)) ∧
    (∀ d suf : Str, validYMD d = true → ' ' ∉ suf →
      parseDateValue (d ++ 'T' :: suf) = .ok (d ++ 'T' :: suf, d)) := by
  have hpd : parseDateValue v = parseDatetimeValue v := by
    rw [parseDateValue, if_pos hsep]
  have hchar : ∀ (d : Str), validYMD d = true → ∀ (x : Char), x ∈ d → x ≠ ' ' ∧ x ≠ 'T' := by
    intro d hd x hx
    obtain ⟨hs, hT⟩ := validYMD_not_sep d hd
    exact ⟨fun he => hs (he ▸ hx), fun he => hT (he ▸ hx)⟩
  have hfp : ∀ (d suf : Str) (sep : Char), validYMD d = true → sep = ' ' ∨ sep = 'T' →
      firstPart sep (d ++ sep :: suf) = d := by
    intro d suf sep hd hsep'
    rw [firstPart_eq_takeWhile]
    have hall : ∀ c ∈ d, (fun c => (decide (c ≠ sep))) c = true := by
      intro c hc
      have := hchar d hd c hc
      rcases hsep' with rfl | rfl
      · simpa using this.1
      · simpa using this.2
    rw [takeWhile_append_all _ d _ hall]
    simp [List.takeWhile_cons]
  constructor
  · rw [hpd]
    unfold parseDatetimeValue validateDateFormat
    cases h : validYMD (firstPart (sepOf v) v) <;> simp [h]
  constructor
  · rw [hpd]
    unfold parseDatetimeValue validateDateFormat
    cases h : validYMD (firstPart (sepOf v) v) <;> simp [h]
  constructor
  · intro h
    rw [hpd]
    unfold parseDatetimeValue validateDateFormat
    simp [h]
  constructor
  · intro d suf hd
    have hspace : ' ' ∈ d ++ ' ' :: suf := by simp
    have hsv : sepOf (d ++ ' ' :: suf) = ' ' := by simp [sepOf, hspace]
    rw [parseDateValue, if_pos (Or.inl hspace)]
    unfold parseDatetimeValue validateDateFormat
    rw [hsv, hfp d suf ' ' hd (Or.inl rfl)]
    simp [hd]
  · intro d suf hd hnsuf
    have hT : 'T' ∈ d ++ 'T' :: suf := by simp
    have hnspace : ' ' ∉ d ++ 'T' :: suf := by
      intro hmem
      rcases List.mem_append.mp hmem with h | h
      · exact (hchar d hd ' ' h).1 rfl
      · rcases List.mem_cons.mp h with h | h
        · cases h
        · exact hnsuf h
    have hsv : sepOf (d ++ 'T' :: suf) = 'T' := by simp [sepOf, hnspace]
    rw [parseDateValue, if_pos (Or.inr hT)]
    unfold parseDatetimeValue validateDateFormat
    rw [hsv, hfp d suf 'T' hd (Or.inr rfl)]
    simp [hd]

/-- Witness for C10: a valid date followed by an arbitrary non-date
suffix resolves successfully, suffix untouched. -/
theorem c10_suffix_never_validated_witness :
    parseDateValue ("2025-12-20".data ++ ' ' :: "not-a-time".data) =
      .ok ("2025-12-20".data ++ ' ' :: "not-a-time".data, "2025-12-20".data) :=
  (c10_suffix_never_validated ("2025-12-20".data ++ ' ' :: "not-a-time".data)
    (by decide)).2.2.2.1 "2025-12-20".data "not-a-time".data (by decide)

/-- C9: a byte-order-mark prefix on the first header cell is dropped for
rendering only: the cleaned header list differs from the input only in
the first cell (which no longer starts with the mark), the rendered table
is built from that cleaned header with all data rows verbatim, and the
row-count validation result is unchanged by the cleaning (the validator
itself always sees the unmutated input rows). -/
theorem c9_bom_only_affects_rendering (h0 : Str) (hr : List Str)
    (rows : List (List Str)) (hyp : "\uFEFF".data.isPrefixOf h0 = true) :
    cleanHeaders (h0 :: hr) = pyLstripChar '\uFEFF' h0 :: hr ∧
    (pyLstripChar '\uFEFF' h0).head? ≠ some '\uFEFF' ∧
    renderTable ((h0 :: hr) :: rows) = buildTable (pyLstripChar '\uFEFF' h0 :: hr) rows ∧
    validateTable rows (h0 :: hr) = validateTable rows (pyLstripChar '\uFEFF' h0 :: hr) ∧
    (validateTable rows (h0 :: hr) = [] →
      generateTable ((h0 :: hr) :: rows) =
        .ok (buildTable (pyLstripChar '\uFEFF' h0 :: hr) rows)) := by
  refine ⟨by simp [cleanHeaders, hyp], ?_, ?_, ?_, ?_⟩
  · intro heq
    have hh := List.head?_dropWhile_not (fun c => decide (c = '\uFEFF')) h0
    rw [pyLstripChar] at heq
    rw [heq] at hh
    simp at hh
  · simp [renderTable, cleanHeaders, hyp]
  · simp [validateTable, List.length_cons]
  · intro hvalid
    simp [generateTable, hvalid, renderTable, cleanHeaders, hyp]

/-- Witness for C9 at a concrete BOM-prefixed header. -/
theorem c9_bom_only_affects_rendering_witness :
    cleanHeaders ['\uFEFF' :: "Name".data, "Score".data] =
      [pyLstripChar '\uFEFF' ('\uFEFF' :: "Name".data), "Score".data] ∧
    (pyLstripChar '\uFEFF' ('\uFEFF' :: "Name".data)).head? ≠ some '\uFEFF' :=
  ⟨(c9_bom_only_affects_rendering ('\uFEFF' :: "Name".data) ["Score".data] []
      (by decide)).1,
   (c9_bom_only_affects_rendering ('\uFEFF' :: "Name".data) ["Score".data] []
      (by decide)).2.1⟩

/-- C6 (amended): metadata parsing is total and degrades gracefully — if
the content's first line is not the delimiter, the result is the empty
map with the whole trimmed content as body; if the content starts with
the delimiter-plus-newline but that four-character sequence never occurs
again (a second delimiter is looked up by substring search, not
line-by-line), the result is likewise the empty map with the whole
trimmed content as body. -/
theorem c6_parse_graceful (content : Str)
    (h : specFirstLine content ≠ "---".data ∨
      ("---\n".data.isPrefixOf content = true ∧
        splitFirst "---\n".data (content.drop 4) = none)) :
    parseFrontmatter content = ([], pyStrip content) := by
  rcases h with h | ⟨hpre, hnone⟩
  · have hnp : ¬ ("---\n".data.isPrefixOf content = true) := by
      intro hp
      apply h
      have hc := isPrefixOf_eq_append "---\n".data content hp
      rw [hc]
      show (('-' :: '-' :: '-' :: '\n' :: content.drop 4).takeWhile fun c => c ≠ '\n') =
        "---".data
      simp [List.takeWhile_cons]
    rw [parseFrontmatter, if_neg hnp]
  · have h1 : splitFirst "---\n".data content = some ([], content.drop 4) := by
      simpa using splitFirst_of_prefixed "---\n".data content (by decide) hpre
    have h2 : splitMax2 "---\n".data content = [[], content.drop 4] := by
      simp only [splitMax2, h1, hnone]
    rw [parseFrontmatter, if_pos hpre, parseWithFrontmatter, h2]

/-- Counterexample to C6 as stated: this content begins with the
delimiter and contains no second delimiter *line* (the only line equal to
`---` is the first), yet the parser finds the `---\n` sequence inside the
line `end---` by substring search and returns a non-empty metadata map
with only the trailing text as body. -/
theorem c6_parse_graceful_counterexample :
    parseFrontmatter "---\na: b\nend---\nbody".data =
      ([("a".data, "b".data)], "body".data) ∧
    ((splitChar '\n' "---\na: b\nend---\nbody".data).filter
      (fun l => l = "---".data)).length = 1 := by
  constructor
  · rfl
  · rfl

/-- Witness for C6 (amended) at content with no leading delimiter. -/
theorem c6_parse_graceful_witness :
    parseFrontmatter "Just a body, no header.".data =
      ([], pyStrip "Just a body, no header.".data) :=
  c6_parse_graceful "Just a body, no header.".data (Or.inl (by decide))

theorem upsert_not_mem (m : List (Str × Str)) (k v : Str)
    (h : ∀ q ∈ m, q.1 ≠ k) : upsert m k v = m ++ [(k, v)] := by
  have hc : ¬ (m.any (fun p => p.1 = k) = true) := by
    simp only [List.any_eq_true, decide_eq_true_eq]
    rintro ⟨p, hp, he⟩
    exact h p hp he
  rw [upsert, if_neg hc]

theorem map_upsert_id (post : List (Str × Str)) (k v : Str)
    (h : ∀ p ∈ post, p.1 ≠ k) :
    post.map (fun p => if p.1 = k then (k, v) else p) = post := by
  induction post with
  | nil => rfl
  | cons q rest ih =>
    simp only [List.map_cons]
    rw [if_neg (h q (List.mem_cons_self _ _)),
      ih (fun p hp => h p (List.mem_cons_of_mem _ hp))]

theorem upsert_mid (pre : List (Str × Str)) (k v old : Str) (post : List (Str × Str))
    (hpre : ∀ p ∈ pre, p.1 ≠ k) (hpost : ∀ p ∈ post, p.1 ≠ k) :
    upsert (pre ++ (k, old) :: post) k v = pre ++ (k, v) :: post := by
  have hany : (pre ++ (k, old) :: post).any (fun p => p.1 = k) = true := by
    simp
  rw [upsert, if_pos hany, List.map_append, List.map_cons,
    map_upsert_id pre k v hpre, map_upsert_id post k v hpost]
  simp

theorem mergeCustom_spec (user : List (Str × Str)) :
    ∀ res : List (Str × Str),
      (user.map Prod.fst).Nodup →
      (∀ p ∈ user, p.1 ∉ reservedKeys → ∀ q ∈ res, q.1 ≠ p.1) →
      mergeCustomFields user res = res ++ user.filter (fun p => p.1 ∉ reservedKeys) := by
  induction user with
  | nil => intro res _ _; simp [mergeCustomFields]
  | cons p rest ih =>
    intro res hnd hdisj
    have hnd' : (rest.map Prod.fst).Nodup :=
      (List.nodup_cons.mp (by simpa using hnd)).2
    by_cases hp : p.1 ∈ reservedKeys
    · have hstep : mergeCustomFields (p :: rest) res = mergeCustomFields rest res := by
        simp [mergeCustomFields, List.foldl_cons, hp]
      rw [hstep,
        ih res hnd' (fun q hq hqns r hr => hdisj q (List.mem_cons_of_mem _ hq) hqns r hr)]
      simp [List.filter_cons, hp]
    · have hup : upsert res p.1 p.2 = res ++ [p] := by
        rw [upsert_not_mem res p.1 p.2 (fun q hq => hdisj p (List.mem_cons_self _ _) hp q hq)]
      have hstep : mergeCustomFields (p :: rest) res = mergeCustomFields rest (res ++ [p]) := by
        simp [mergeCustomFields, List.foldl_cons, hp, hup]
      have hdisj' : ∀ q ∈ rest, q.1 ∉ reservedKeys → ∀ r ∈ res ++ [p], r.1 ≠ q.1 := by
        intro q hq hqns r hr
        rcases List.mem_append.mp hr with h1 | h1
        · exact hdisj q (List.mem_cons_of_mem _ hq) hqns r h1
        · rcases List.mem_cons.mp h1 with heq | h2
          · intro he
            have he' : p.1 = q.1 := by rw [← heq]; exact he
            have hqm : q.1 ∈ rest.map Prod.fst := List.mem_map.mpr ⟨q, hq, rfl⟩
            have hniq : p.1 ∉ rest.map Prod.fst :=
              (List.nodup_cons.mp (by simpa using hnd)).1
            exact hniq (he' ▸ hqm)
          · cases h2
      rw [hstep, ih (res ++ [p]) hnd' hdisj']
      simp [List.filter_cons, hp, List.append_assoc]

theorem mergeOverridable_spec (user : List (Str × Str)) (l t d : Str)
    (custom : List (Str × Str)) (hc : ∀ p ∈ custom, p.1 ∉ reservedKeys) :
    mergeOverridableFields user
        (("layout".data, l) :: ("title".data, t) :: ("date".data, d) :: custom) =
      ("layout".data, l) ::
      ("title".data, (findValue user "title".data).getD t) ::
      ("date".data, (findValue user "date".data).getD d) :: custom := by
  have hcT : ∀ p ∈ custom, p.1 ≠ "title".data := by
    intro p hp he
    exact hc p hp (by rw [he]; decide)
  have hcD : ∀ p ∈ custom, p.1 ≠ "date".data := by
    intro p hp he
    exact hc p hp (by rw [he]; decide)
  have hpreT : ∀ p ∈ [("layout".data, l)], p.1 ≠ "title".data := by
    intro p hp
    rcases List.mem_cons.mp hp with heq | h2
    · rw [heq]; exact (by decide : "layout".data ≠ "title".data)
    · cases h2
  have hpostT : ∀ p ∈ ("date".data, d) :: custom, p.1 ≠ "title".data := by
    intro p hp
    rcases List.mem_cons.mp hp with heq | h2
    · rw [heq]; exact (by decide : "date".data ≠ "title".data)
    · exact hcT p h2
  unfold mergeOverridableFields
  simp only [List.foldl_cons, List.foldl_nil]
  cases ht : findValue user "title".data with
  | none =>
    cases hd : findValue user "date".data with
    | none => simp [ht, hd]
    | some dv =>
      have hpreD : ∀ p ∈ [("layout".data, l), ("title".data, t)], p.1 ≠ "date".data := by
        intro p hp
        rcases List.mem_cons.mp hp with heq | h2
        · rw [heq]; exact (by decide : "layout".data ≠ "date".data)
        · rcases List.mem_cons.mp h2 with heq | h3
          · rw [heq]; exact (by decide : "title".data ≠ "date".data)
          · cases h3
      have hu := upsert_mid [("layout".data, l), ("title".data, t)] "date".data dv d
        custom hpreD hcD
      simp only [ht, hd]
      simpa using hu
  | some tv =>
    have hu1 := upsert_mid [("layout".data, l)] "title".data tv t
      (("date".data, d) :: custom) hpreT hpostT
    cases hd : findValue user "date".data with
    | none =>
      simp only [ht, hd]
      simpa using hu1
    | some dv =>
      have hpreD : ∀ p ∈ [("layout".data, l), ("title".data, tv)], p.1 ≠ "date".data := by
        intro p hp
        rcases List.mem_cons.mp hp with heq | h2
        · rw [heq]; exact (by decide : "layout".data ≠ "date".data)
        · rcases List.mem_cons.mp h2 with heq | h3
          · rw [heq]; exact (by decide : "title".data ≠ "date".data)
          · cases h3
      have hu2 := upsert_mid [("layout".data, l), ("title".data, tv)] "date".data dv d
        custom hpreD hcD
      simp only [ht, hd]
      simp only [List.singleton_append, List.cons_append, List.nil_append] at hu1 hu2
      simp only [Option.getD_some]
      rw [hu1, hu2]

/-- C3: merging user metadata into the defaults map
(holding `layout`, `title` and `date`) yields `layout` from the defaults regardless of
any user-supplied `layout`; `title` and `date` are the user values when
present, else the defaults; every other user key is appended verbatim
after the three reserved keys, in the user map's own order — which is
also the serialization order, since `_format_frontmatter` emits entries
in map order. -/
theorem c3_merge_precedence (user : List (Str × Str)) (l t d : Str)
    (hnd : (user.map Prod.fst).Nodup) :
    mergeFrontmatter user [("layout".data, l), ("title".data, t), ("date".data, d)] =
      ("layout".data, l) ::
      ("title".data, (findValue user "title".data).getD t) ::
      ("date".data, (findValue user "date".data).getD d) ::
      user.filter (fun p => p.1 ∉ reservedKeys) ∧
    (mergeFrontmatter user
        [("layout".data, l), ("title".data, t), ("date".data, d)]).map Prod.fst =
      "layout".data :: "title".data :: "date".data ::
        (user.filter (fun p => p.1 ∉ reservedKeys)).map Prod.fst := by
  have hdisj : ∀ p ∈ user, p.1 ∉ reservedKeys →
      ∀ q ∈ [("layout".data, l), ("title".data, t), ("date".data, d)], q.1 ≠ p.1 := by
    intro p hp hpns q hq he
    apply hpns
    rw [← he]
    rcases List.mem_cons.mp hq with heq | h2
    · rw [heq]; exact (by decide : "layout".data ∈ reservedKeys)
    · rcases List.mem_cons.mp h2 with heq | h3
      · rw [heq]; exact (by decide : "title".data ∈ reservedKeys)
      · rcases List.mem_cons.mp h3 with heq | h4
        · rw [heq]; exact (by decide : "date".data ∈ reservedKeys)
        · cases h4
  have h1 := mergeCustom_spec user
    [("layout".data, l), ("title".data, t), ("date".data, d)] hnd hdisj
  have hcf : ∀ p ∈ user.filter (fun p => p.1 ∉ reservedKeys), p.1 ∉ reservedKeys := by
    intro p hp
    have := (List.mem_filter.mp hp).2
    simpa using this
  have h2 := mergeOverridable_spec user l t d
    (user.filter (fun p => p.1 ∉ reservedKeys)) hcf
  have hmain : mergeFrontmatter user
      [("layout".data, l), ("title".data, t), ("date".data, d)] =
      ("layout".data, l) ::
      ("title".data, (findValue user "title".data).getD t) ::
      ("date".data, (findValue user "date".data).getD d) ::
      user.filter (fun p => p.1 ∉ reservedKeys) := by
    rw [mergeFrontmatter, h1]
    exact h2
  exact ⟨hmain, by rw [hmain]; simp⟩

/-- Witness for C3 at a user map that tries to override `layout`, sets
`title`, and carries one custom key. -/
theorem c3_merge_precedence_witness :
    mergeFrontmatter
        [("layout".data, "evil".data), ("venue".data, "Armory".data),
         ("title".data, "Custom".data)]
        [("layout".data, "post".data), ("title".data, "T0".data),
         ("date".data, "2025-03-15".data)] =
      ("layout".data, "post".data) ::
      ("title".data,
        (findValue
          [("layout".data, "evil".data), ("venue".data, "Armory".data),
           ("title".data, "Custom".data)] "title".data).getD "T0".data) ::
      ("date".data,
        (findValue
          [("layout".data, "evil".data), ("venue".data, "Armory".data),
           ("title".data, "Custom".data)] "date".data).getD "2025-03-15".data) ::
      [("layout".data, "evil".data), ("venue".data, "Armory".data),
       ("title".data, "Custom".data)].filter (fun p => p.1 ∉ reservedKeys) :=
  (c3_merge_precedence
    [("layout".data, "evil".data), ("venue".data, "Armory".data),
     ("title".data, "Custom".data)]
    "post".data "T0".data "2025-03-15".data (by decide)).1
